import Mathlib

/-!
# Verification of `fk.py` ("Frågekonstruktören")

A shallow embedding of the observable logic of `src/fk.py`: the learning-objective
count formula, the code-fence stripping applied to completion replies, the session
state reset, the document text extractor, the two generator functions, the upload
handler, and the per-objective MCQ loop.

External collaborators are modelled as inputs:
* the completion endpoint's reply is a parameter of type `Except String String`
  (`.error` models a raised exception from the call);
* the external `json.loads` is a parameter `jsonLoads : String → Except String Json`
  (`.error` models a raised decode exception);
* document-parsing library calls inside `extract_text` are fields of `UploadedFile`,
  each an `Except` whose `.error` models a raised exception.

Python strings are modelled as Lean `String`s (lists of characters);
`str.strip`, `str.splitlines`, `str.startswith`, `str.endswith` and `"\n".join`
are re-implemented below with Python's (Unicode) semantics.
-/

set_option autoImplicit false

namespace FK

/-- The characters Python's `str.strip()` removes: the Unicode whitespace set. -/
def pyIsSpace (c : Char) : Bool :=
  c = ' ' || c = '\t' || c = '\n' || c = '\x0b' || c = '\x0c' || c = '\r' ||
  c = '\x1c' || c = '\x1d' || c = '\x1e' || c = '\x1f' ||
  c = '\u0085' || c = '\u00a0' || c = '\u1680' ||
  c = '\u2000' || c = '\u2001' || c = '\u2002' || c = '\u2003' || c = '\u2004' ||
  c = '\u2005' || c = '\u2006' || c = '\u2007' || c = '\u2008' || c = '\u2009' ||
  c = '\u200a' || c = '\u2028' || c = '\u2029' || c = '\u202f' || c = '\u205f' ||
  c = '\u3000'

/-- The characters Python's `str.splitlines()` treats as line boundaries. -/
def isLineBreak (c : Char) : Bool :=
  c = '\n' || c = '\r' || c = '\x0b' || c = '\x0c' ||
  c = '\x1c' || c = '\x1d' || c = '\x1e' ||
  c = '\u0085' || c = '\u2028' || c = '\u2029'

/-- Core of Python `str.splitlines()`: split at line boundaries, `\r\n` counting
as a single boundary, with no trailing empty line (`"a\n".splitlines() == ["a"]`,
`"".splitlines() == []`). The accumulator holds the current line reversed. -/
def splitlinesAux : List Char → List Char → List (List Char)
  | [], acc => if acc = [] then [] else [acc.reverse]
  | '\r' :: '\n' :: rest, acc => acc.reverse :: splitlinesAux rest []
  | c :: rest, acc =>
      if isLineBreak c then acc.reverse :: splitlinesAux rest []
      else splitlinesAux rest (c :: acc)

/-- Python `str.splitlines()`. -/
def pySplitlines (s : String) : List String :=
  (splitlinesAux s.data []).map String.mk

/-- Python `str.strip()` on a character list. -/
def pyStripL (l : List Char) : List Char :=
  ((l.dropWhile pyIsSpace).reverse.dropWhile pyIsSpace).reverse

/-- Python `str.strip()`. -/
def pyStrip (s : String) : String :=
  String.mk (pyStripL s.data)

/-- Python `"\n".join` on character lists. -/
def joinLines : List (List Char) → List Char
  | [] => []
  | [l] => l
  | l :: l2 :: rest => l ++ '\n' :: joinLines (l2 :: rest)

/-- Python `"\n".join(lines)`. -/
def pyJoinNL (ls : List String) : String :=
  String.mk (joinLines (ls.map String.data))

/-- Python `s.startswith(p)`. -/
def pyStartsWith (s p : String) : Bool :=
  p.data.isPrefixOf s.data

/-- Python `s.endswith(p)`. -/
def pyEndsWith (s p : String) : Bool :=
  p.data.isSuffixOf s.data

/-- Source lines 112–113 of `fk.py`: `if lines[0].startswith("```"): lines = lines[1:]`.
The `[]` branch is unreachable in context (a string starting with a backtick has
a first line) and mirrors Python's unguarded `lines[0]` benignly. -/
def dropFirstFence (lines : List String) : List String :=
  match lines with
  | l0 :: rest => if pyStartsWith l0 "```" then rest else lines
  | [] => lines

/-- Source lines 114–115 of `fk.py`: `if lines and lines[-1].startswith("```"): lines = lines[:-1]`. -/
def dropLastFence (lines : List String) : List String :=
  match lines.getLast? with
  | some last => if pyStartsWith last "```" then lines.dropLast else lines
  | none => lines

/-- The code-fence stripping applied to a completion reply, `fk.py` lines 109–116
(and the identical lines 203–210): strip whitespace, and if the result starts with
a fence marker, drop the first line and — if it also starts with a fence marker —
the last line, rejoin with newlines, and strip again. -/
def stripReplyFences (reply : String) : String :=
  let rawOutput := pyStrip reply
  if pyStartsWith rawOutput "```" then
    pyStrip (pyJoinNL (dropLastFence (dropFirstFence (pySplitlines rawOutput))))
  else rawOutput

/-- JSON values, as produced by the external `json.loads`. -/
inductive Json where
  | null : Json
  | bool : Bool → Json
  | num : Int → Json
  | str : String → Json
  | arr : List Json → Json
  | obj : List (String × Json) → Json

/-- Source lines 67–68 of `fk.py`: `num_goals = min(max(text_length // 1000, 3), 8)`,
with `text_length = len(faktabas)`. -/
def num_goals (text_length : Nat) : Nat :=
  min (max (text_length / 1000) 3) 8

/-- Modelled from the spec's words (for comparison with `num_goals`):
`clamp(v, lo, hi)`, the value `v` forced into the interval `[lo, hi]`. -/
def specClamp (v lo hi : Nat) : Nat :=
  max lo (min v hi)

/-- A value held in Streamlit session state. -/
inductive SessVal where
  | str : String → SessVal
  | json : Json → SessVal
  | dict : List (String × Json) → SessVal

/-- The session state: a Python dict with string keys, viewed through lookup. -/
def SessionState : Type := String → Option SessVal

/-- Python `st.session_state.pop(key, None)`: remove a key. -/
def popKey (st : SessionState) (k : String) : SessionState :=
  fun k' => if k' = k then none else st k'

/-- Python `st.session_state[key] = v`. -/
def setKey (st : SessionState) (k : String) (v : SessVal) : SessionState :=
  fun k' => if k' = k then some v else st k'

/-- Source line 14 of `fk.py`: the keys cleared by the reset button. -/
def resetSessionKeys : List String :=
  ["faktabas", "larandemal_och_indikatorer", "mcqs"]

/-- Source lines 12–15 of `fk.py`: the reset button handler pops each of the three keys. -/
def reset_handler (st : SessionState) : SessionState :=
  resetSessionKeys.foldl popKey st

/-- An uploaded file, with the results of the external document-parsing calls
`extract_text` makes recorded as fields (`.error e` models that the call raised
an exception rendered as `e`). -/
structure UploadedFile where
  /-- The uploaded file's name (`file.name`). -/
  name : String
  /-- Result of `file.getvalue().decode("utf-8")`. -/
  txtDecode : Except String String
  /-- Result of `pdfplumber.open(file)` followed by reading `pdf.pages`: the
  per-page results of `page.extract_text()`, which returns `None` or a string
  and may raise. An `.error` at the outer level models `open` itself raising. -/
  pdfPages : Except String (List (Except String (Option String)))
  /-- Result of `docx.Document(file)` followed by reading each paragraph's
  `.text`. An `.error` models `Document` raising. -/
  docxParas : Except String (List String)

/-- Source lines 37–40 of `fk.py`: the page loop of the PDF branch, accumulating
`text += page_text + "\n"` for each truthy `page_text` and stopping at the
first page whose extraction raises. Returns the accumulated text and the
error messages shown. -/
def pdfAccum : List (Except String (Option String)) → String → String × List String
  | [], text => (text, [])
  | Except.error e :: _, text => (text, ["Fel vid extrahering av text: " ++ e])
  | Except.ok none :: rest, text => pdfAccum rest text
  | Except.ok (some pt) :: rest, text =>
      if pt = "" then pdfAccum rest text else pdfAccum rest (text ++ pt ++ "\n")

/-- Source lines 29–47 of `fk.py`: `extract_text`. Returns the extracted text and the
error messages shown (`st.error` calls). Any exception from the parsing
libraries is caught, reported, and the text accumulated so far is returned. -/
def extract_text (file : UploadedFile) : String × List String :=
  if pyEndsWith file.name ".txt" then
    match file.txtDecode with
    | Except.ok t => (t, [])
    | Except.error e => ("", ["Fel vid extrahering av text: " ++ e])
  else if pyEndsWith file.name ".pdf" then
    match file.pdfPages with
    | Except.error e => ("", ["Fel vid extrahering av text: " ++ e])
    | Except.ok pages => pdfAccum pages ""
  else if pyEndsWith file.name ".docx" then
    match file.docxParas with
    | Except.error e => ("", ["Fel vid extrahering av text: " ++ e])
    | Except.ok paras => (paras.foldl (fun text p => text ++ p ++ "\n") "", [])
  else ("", [])

/-- What a generator function returns together with the error messages it shows.
(The diagnostic `st.write` of the raw output on decode failure is display only
and not modelled.) -/
structure GenOutcome where
  value : Json
  errors : List String

/-- Source lines 93–132 of `fk.py`: the response handling of `generate_learning_objectives`,
with the completion call's result supplied as `apiReply` and the external
`json.loads` as `jsonLoads`. The inner `try` catches only the decode; the outer
`try` catches the call itself. Python's literal `return []` is `Json.arr []`. -/
def generate_learning_objectives (jsonLoads : String → Except String Json)
    (apiReply : Except String String) : GenOutcome :=
  match apiReply with
  | Except.error e =>
      ⟨Json.arr [], ["Fel vid generering av lärandemål och indikatorer: " ++ e]⟩
  | Except.ok content =>
      let rawOutput := stripReplyFences content
      if rawOutput = "" then ⟨Json.arr [], ["API:s svar var tomt."]⟩
      else
        match jsonLoads rawOutput with
        | Except.ok v => ⟨v, []⟩
        | Except.error jsonErr =>
            ⟨Json.arr [], ["Fel vid tolkning av JSON-svar från API: " ++ jsonErr]⟩

/-- Source lines 189–216 of `fk.py`: the response handling of `generate_mcq`. One `try`
covers the call, the fence stripping and the decode; any failure is reported
and `[]` returned. -/
def generate_mcq (jsonLoads : String → Except String Json)
    (apiReply : Except String String) : GenOutcome :=
  match apiReply with
  | Except.error e => ⟨Json.arr [], ["Fel vid generering av MCQs: " ++ e]⟩
  | Except.ok content =>
      match jsonLoads (stripReplyFences content) with
      | Except.ok v => ⟨v, []⟩
      | Except.error e => ⟨Json.arr [], ["Fel vid generering av MCQs: " ++ e]⟩

/-- A Python dict with string keys as an insertion-ordered association list with
unique keys; `d[k] = v` updates in place or appends. -/
def dictSet (d : List (String × Json)) (k : String) (v : Json) :
    List (String × Json) :=
  if d.any (fun kv => kv.1 = k) then
    d.map (fun kv => if kv.1 = k then (k, v) else kv)
  else d ++ [(k, v)]

/-- Lookup in the dict model. -/
def dictGet (d : List (String × Json)) (k : String) : Option Json :=
  (d.find? (fun kv => kv.1 = k)).map Prod.snd

/-- Source lines 258–264 of `fk.py`: the per-objective MCQ loop
`mcqs_all[larandemal] = generate_mcq(...)`, with each objective abstracted to
its title (`obj.get("larandemal", "")`) paired with the completion reply its
`generate_mcq` call receives. -/
def mcqLoop (jsonLoads : String → Except String Json) :
    List (String × Except String String) → List (String × Json) →
    List (String × Json)
  | [], mcqsAll => mcqsAll
  | (title, reply) :: rest, mcqsAll =>
      mcqLoop jsonLoads rest (dictSet mcqsAll title (generate_mcq jsonLoads reply).value)

/-- Source lines 228–234 of `fk.py`: the upload branch of `main`. Returns the new session
state, the error messages shown, and the success messages shown. -/
def handleUpload (st : SessionState) (file : UploadedFile) :
    SessionState × List String × List String :=
  let ex := extract_text file
  if ex.1 ≠ "" then
    (setKey st "faktabas" (SessVal.str ex.1), ex.2,
      ["Filen " ++ file.name ++ " har laddats upp!"])
  else
    (st, ex.2 ++ ["Kunde inte extrahera text från filen."], [])

end FK

namespace FK

/-! ## Lemmas about the Python string model -/

set_option maxHeartbeats 2000000 in
theorem splitlinesAux_nil (acc : List Char) :
    splitlinesAux [] acc = if acc = [] then [] else [acc.reverse] := by
  rw [splitlinesAux.eq_def]

theorem splitlinesAux_cons (c : Char) (rest acc : List Char) (hc : c ≠ '\r') :
    splitlinesAux (c :: rest) acc =
      if isLineBreak c then acc.reverse :: splitlinesAux rest []
      else splitlinesAux rest (c :: acc) := by
  rw [splitlinesAux.eq_def]
  split
  · simp_all
  · simp_all
  · rename_i heq
    injection heq with h1 h2
    subst h1; subst h2
    rfl

theorem ne_cr_of_noBreak {c : Char} (h : isLineBreak c = false) : c ≠ '\r' := by
  intro hc
  subst hc
  simp [isLineBreak] at h

/-- A line of non-break characters followed by a newline is split off whole. -/
theorem splitlinesAux_line_append (l rest acc : List Char)
    (hl : ∀ c ∈ l, isLineBreak c = false) :
    splitlinesAux (l ++ '\n' :: rest) acc =
      (acc.reverse ++ l) :: splitlinesAux rest [] := by
  induction l generalizing acc with
  | nil =>
      rw [List.nil_append, splitlinesAux_cons '\n' rest acc (by decide)]
      simp [isLineBreak]
  | cons c l ih =>
      have hc : isLineBreak c = false := hl c (by simp)
      rw [List.cons_append, splitlinesAux_cons c _ acc (ne_cr_of_noBreak hc),
        if_neg (by simp [hc]), ih (c :: acc) (fun d hd => hl d (by simp [hd]))]
      simp

/-- A nonempty trailing chunk of non-break characters forms a final line. -/
theorem splitlinesAux_noBreak (l acc : List Char)
    (hl : ∀ c ∈ l, isLineBreak c = false) (h : l ≠ [] ∨ acc ≠ []) :
    splitlinesAux l acc = [acc.reverse ++ l] := by
  induction l generalizing acc with
  | nil =>
      rcases h with h | h
      · exact absurd rfl h
      · rw [splitlinesAux_nil, if_neg h]
        simp
  | cons c l ih =>
      have hc : isLineBreak c = false := hl c (by simp)
      rw [splitlinesAux_cons c l acc (ne_cr_of_noBreak hc), if_neg (by simp [hc]),
        ih (c :: acc) (fun d hd => hl d (by simp [hd])) (Or.inr (by simp))]
      simp

/-- Splitting with a nonempty break-free last line appended. -/
theorem splitlinesAux_last_append (l₁ l₂ acc : List Char)
    (h₁ : ∀ c ∈ l₁, isLineBreak c = true → c = '\n')
    (h₂ : ∀ c ∈ l₂, isLineBreak c = false) (hne : l₂ ≠ []) :
    splitlinesAux (l₁ ++ '\n' :: l₂) acc =
      splitlinesAux (l₁ ++ ['\n']) acc ++ [l₂] := by
  induction l₁ generalizing acc with
  | nil =>
      rw [List.nil_append, List.nil_append,
        splitlinesAux_cons '\n' l₂ acc (by decide), if_pos (by decide),
        splitlinesAux_cons '\n' [] acc (by decide), if_pos (by decide),
        splitlinesAux_noBreak l₂ [] h₂ (Or.inl hne), splitlinesAux_nil]
      simp
  | cons c l₁ ih =>
      have hcr : c ≠ '\r' := by
        intro hc
        subst hc
        have := h₁ '\r' (by simp) (by decide)
        simp at this
      rw [List.cons_append, List.cons_append,
        splitlinesAux_cons c _ acc hcr, splitlinesAux_cons c _ acc hcr]
      by_cases hb : isLineBreak c = true
      · rw [if_pos hb, if_pos hb, ih [] (fun d hd h => h₁ d (by simp [hd]) h)]
        simp
      · rw [if_neg hb, if_neg hb, ih (c :: acc) (fun d hd h => h₁ d (by simp [hd]) h)]

/-- A split of a newline-terminated list is never empty. -/
theorem splitlinesAux_newline_ne_nil (l acc : List Char)
    (hl : ∀ c ∈ l, isLineBreak c = true → c = '\n') :
    splitlinesAux (l ++ ['\n']) acc ≠ [] := by
  induction l generalizing acc with
  | nil =>
      rw [List.nil_append, splitlinesAux_cons '\n' [] acc (by decide),
        if_pos (by decide)]
      simp
  | cons c l ih =>
      have hcr : c ≠ '\r' := by
        intro hc
        subst hc
        have := hl '\r' (by simp) (by decide)
        simp at this
      rw [List.cons_append, splitlinesAux_cons c _ acc hcr]
      by_cases hb : isLineBreak c = true
      · rw [if_pos hb]
        simp
      · rw [if_neg hb]
        exact ih (c :: acc) (fun d hd h => hl d (by simp [hd]) h)

theorem joinLines_cons (a : List Char) (X : List (List Char)) (hX : X ≠ []) :
    joinLines (a :: X) = a ++ '\n' :: joinLines X := by
  cases X with
  | nil => exact absurd rfl hX
  | cons b X => rfl

/-- Rejoining the lines of a newline-terminated list recovers the list. -/
theorem joinLines_splitlinesAux (l acc : List Char)
    (hl : ∀ c ∈ l, isLineBreak c = true → c = '\n') :
    joinLines (splitlinesAux (l ++ ['\n']) acc) = acc.reverse ++ l := by
  induction l generalizing acc with
  | nil =>
      rw [List.nil_append, splitlinesAux_cons '\n' [] acc (by decide),
        if_pos (by decide), splitlinesAux_nil, if_pos rfl]
      simp [joinLines]
  | cons c l ih =>
      have hcr : c ≠ '\r' := by
        intro hc
        subst hc
        have := hl '\r' (by simp) (by decide)
        simp at this
      rw [List.cons_append, splitlinesAux_cons c _ acc hcr]
      by_cases hb : isLineBreak c = true
      · have hcn : c = '\n' := hl c (by simp) hb
        subst hcn
        rw [if_pos hb,
          joinLines_cons _ _
            (splitlinesAux_newline_ne_nil l [] (fun d hd h => hl d (by simp [hd]) h)),
          ih [] (fun d hd h => hl d (by simp [hd]) h)]
        simp
      · rw [if_neg hb, ih (c :: acc) (fun d hd h => hl d (by simp [hd]) h)]
        simp

/-- Every line-boundary character is whitespace. -/
theorem noBreak_of_noSpace {c : Char} (h : pyIsSpace c = false) :
    isLineBreak c = false := by
  by_contra hb
  rw [Bool.not_eq_false] at hb
  simp only [isLineBreak, Bool.or_eq_true, decide_eq_true_eq] at hb
  rcases hb with ((((((((h1 | h1) | h1) | h1) | h1) | h1) | h1) | h1) | h1) | h1 <;>
    subst h1 <;> exact absurd h (by decide)

theorem dropFirstFence_cons (l0 : String) (rest : List String)
    (h : pyStartsWith l0 "```" = true) :
    dropFirstFence (l0 :: rest) = rest := by
  simp [dropFirstFence, h]

theorem dropLastFence_concat (X : List String) (lst : String)
    (h : pyStartsWith lst "```" = true) :
    dropLastFence (X ++ [lst]) = X := by
  simp [dropLastFence, List.getLast?_concat, h, List.dropLast_concat]

theorem map_data_map_mk (Y : List (List Char)) :
    (Y.map String.mk).map String.data = Y := by
  induction Y with
  | nil => rfl
  | cons a Y ih => simp [ih]

theorem startsWith_backticks {s : String} (h : pyStartsWith s "```" = true) :
    ∃ t, s.data = '`' :: '`' :: '`' :: t := by
  unfold pyStartsWith at h
  rw [List.isPrefixOf_iff_prefix] at h
  rcases h with ⟨t, ht⟩
  exact ⟨t, by rw [← ht]; rfl⟩

/-- Stripping is the identity when both ends are non-whitespace. -/
theorem pyStripL_eq_self (l : List Char)
    (h1 : ∀ c, l.head? = some c → pyIsSpace c = false)
    (h2 : ∀ c, l.getLast? = some c → pyIsSpace c = false) :
    pyStripL l = l := by
  unfold pyStripL
  have hd : l.dropWhile pyIsSpace = l := by
    cases l with
    | nil => rfl
    | cons c t =>
        rw [List.dropWhile_cons, if_neg (by simp [h1 c rfl])]
  rw [hd]
  have hr : l.reverse.dropWhile pyIsSpace = l.reverse := by
    cases hrev : l.reverse with
    | nil => rfl
    | cons c t =>
        have : l.getLast? = some c := by
          rw [← List.head?_reverse, hrev]
          rfl
        rw [List.dropWhile_cons, if_neg (by simp [h2 c this])]
  rw [hr, List.reverse_reverse]

/-- The heart of claim C2, separated for reuse: preprocessing a reply made of a
fence line, a body `s`, and a closing fence line yields exactly `pyStrip s`,
which is also what preprocessing the unfenced reply `s` yields. -/
theorem stripReplyFences_wrapped (fo fc s : String)
    (hfo : pyStartsWith fo "```" = true)
    (hfc : pyStartsWith fc "```" = true)
    (hfoNB : ∀ c ∈ fo.data, isLineBreak c = false)
    (hfcNS : ∀ c ∈ fc.data, pyIsSpace c = false)
    (hs : ∀ c ∈ s.data, isLineBreak c = true → c = '\n') :
    stripReplyFences (fo ++ "\n" ++ s ++ "\n" ++ fc) = pyStrip s := by
  obtain ⟨tfo, hfo_data⟩ := startsWith_backticks hfo
  have hfc_ne : fc.data ≠ [] := by
    obtain ⟨tfc, hfc_data⟩ := startsWith_backticks hfc
    rw [hfc_data]
    simp
  have hfcNB : ∀ c ∈ fc.data, isLineBreak c = false :=
    fun c hc => noBreak_of_noSpace (hfcNS c hc)
  have hnl : ("\n" : String).data = ['\n'] := rfl
  have hw : (fo ++ "\n" ++ s ++ "\n" ++ fc).data
      = fo.data ++ '\n' :: (s.data ++ '\n' :: fc.data) := by
    simp [String.data_append, hnl]
  have hstripL : pyStripL (fo ++ "\n" ++ s ++ "\n" ++ fc).data
      = (fo ++ "\n" ++ s ++ "\n" ++ fc).data := by
    apply pyStripL_eq_self
    · intro c hc
      rw [hw, hfo_data] at hc
      simp only [List.cons_append, List.head?_cons, Option.some.injEq] at hc
      subst hc
      decide
    · intro c hc
      have hw2 : (fo ++ "\n" ++ s ++ "\n" ++ fc).data
          = (fo.data ++ '\n' :: (s.data ++ ['\n'])) ++ fc.data := by
        rw [hw]
        simp
      rw [hw2, List.getLast?_append_of_ne_nil _ hfc_ne] at hc
      exact hfcNS c (List.mem_of_mem_getLast? hc)
  have hstrip : pyStrip (fo ++ "\n" ++ s ++ "\n" ++ fc)
      = fo ++ "\n" ++ s ++ "\n" ++ fc := by
    show String.mk (pyStripL _) = _
    rw [hstripL]
  have hwstarts : pyStartsWith (fo ++ "\n" ++ s ++ "\n" ++ fc) "```" = true := by
    unfold pyStartsWith
    rw [List.isPrefixOf_iff_prefix, hw, hfo_data]
    exact ⟨tfo ++ '\n' :: (s.data ++ '\n' :: fc.data), by simp⟩
  have hmk_fo : String.mk fo.data = fo := rfl
  have hmk_fc : String.mk fc.data = fc := rfl
  have hmk_s : String.mk s.data = s := rfl
  unfold stripReplyFences
  rw [hstrip, if_pos hwstarts]
  unfold pySplitlines
  rw [hw, splitlinesAux_line_append fo.data _ [] hfoNB,
    splitlinesAux_last_append s.data fc.data [] hs hfcNB hfc_ne]
  simp only [List.reverse_nil, List.nil_append, List.map_cons, List.map_append,
    List.map_nil, hmk_fo, hmk_fc]
  rw [dropFirstFence_cons fo _ hfo, dropLastFence_concat _ fc hfc]
  unfold pyJoinNL
  rw [map_data_map_mk, joinLines_splitlinesAux s.data [] hs]
  simp only [List.reverse_nil, List.nil_append, hmk_s]

/-! ## Lemmas about the dict model and the MCQ loop -/

theorem any_key_eq_keys_any (d : List (String × Json)) (k : String) :
    (d.any fun kv => kv.1 = k) = ((d.map Prod.fst).any fun x => x = k) := by
  induction d with
  | nil => rfl
  | cons kv d ih => simp [List.any_cons, ih]

theorem find?_map_update (d : List (String × Json)) (k : String) (v : Json)
    (hmem : ∃ kv ∈ d, kv.1 = k) :
    (d.map fun kv => if kv.1 = k then (k, v) else kv).find? (fun kv => kv.1 = k)
      = some (k, v) := by
  induction d with
  | nil => simp at hmem
  | cons kv d ih =>
      by_cases hk : kv.1 = k
      · rw [List.map_cons, if_pos hk, List.find?_cons_of_pos _ (by simp)]
      · rw [List.map_cons, if_neg hk, List.find?_cons_of_neg _ (by simp [hk])]
        apply ih
        rcases hmem with ⟨kv', hkv', he⟩
        rcases List.mem_cons.mp hkv' with h | h
        · exact absurd (h ▸ he) hk
        · exact ⟨kv', h, he⟩

theorem find?_map_update_ne (d : List (String × Json)) (k k' : String) (v : Json)
    (hne : k' ≠ k) :
    (d.map fun kv => if kv.1 = k then (k, v) else kv).find? (fun kv => kv.1 = k')
      = d.find? (fun kv => kv.1 = k') := by
  induction d with
  | nil => rfl
  | cons kv d ih =>
      by_cases hk : kv.1 = k
      · rw [List.map_cons, if_pos hk, List.find?_cons_of_neg _ (by simp [Ne.symm hne]),
          List.find?_cons_of_neg _ (by simp [hk ▸ Ne.symm hne]), ih]
      · rw [List.map_cons, if_neg hk]
        by_cases hk' : kv.1 = k'
        · rw [List.find?_cons_of_pos _ (by simp [hk']),
            List.find?_cons_of_pos _ (by simp [hk'])]
        · rw [List.find?_cons_of_neg _ (by simp [hk']),
            List.find?_cons_of_neg _ (by simp [hk']), ih]

theorem find?_key_eq_none (d : List (String × Json)) (k : String)
    (h : (d.any fun kv => kv.1 = k) = false) :
    d.find? (fun kv => kv.1 = k) = none := by
  rw [List.find?_eq_none]
  intro kv hkv
  have := List.any_eq_false.mp h kv hkv
  simpa using this

theorem dictGet_dictSet_self (d : List (String × Json)) (k : String) (v : Json) :
    dictGet (dictSet d k v) k = some v := by
  unfold dictSet dictGet
  split
  · rename_i h
    rw [find?_map_update d k v]
    · rfl
    · rcases List.any_eq_true.mp h with ⟨kv, hkv, he⟩
      exact ⟨kv, hkv, by simpa using he⟩
  · rename_i h
    have h' : (d.any fun kv => kv.1 = k) = false := by
      rw [← Bool.not_eq_true]
      exact h
    rw [List.find?_append, find?_key_eq_none d k h',
      List.find?_cons_of_pos _ (by simp)]
    rfl

theorem dictGet_dictSet_ne (d : List (String × Json)) (k k' : String) (v : Json)
    (hne : k' ≠ k) :
    dictGet (dictSet d k v) k' = dictGet d k' := by
  unfold dictSet dictGet
  split
  · rw [find?_map_update_ne d k k' v hne]
  · rw [List.find?_append]
    have h1 : List.find? (fun kv => decide (kv.1 = k')) [(k, v)] = none := by
      rw [List.find?_cons_of_neg _ (by simp only [decide_eq_true_eq]; exact Ne.symm hne)]
      rfl
    rw [h1, Option.or_none]

theorem dictSet_keys (d : List (String × Json)) (k : String) (v : Json) :
    (dictSet d k v).map Prod.fst =
      if (d.any fun kv => kv.1 = k) then d.map Prod.fst
      else d.map Prod.fst ++ [k] := by
  unfold dictSet
  split
  · rw [List.map_map]
    apply List.map_congr_left
    intro kv _
    by_cases hk : kv.1 = k
    · simp [hk]
    · simp [hk]
  · simp

theorem dictSet_keys_mem (d : List (String × Json)) (k : String) (v : Json)
    (k' : String) :
    k' ∈ (dictSet d k v).map Prod.fst ↔ k' ∈ d.map Prod.fst ∨ k' = k := by
  rw [dictSet_keys]
  split
  · rename_i h
    constructor
    · exact Or.inl
    · rintro (h' | h')
      · exact h'
      · subst h'
        rcases List.any_eq_true.mp h with ⟨kv, hkv, he⟩
        exact List.mem_map.mpr ⟨kv, hkv, by simpa using he⟩
  · simp

theorem dictSet_keys_nodup (d : List (String × Json)) (k : String) (v : Json)
    (h : (d.map Prod.fst).Nodup) : ((dictSet d k v).map Prod.fst).Nodup := by
  rw [dictSet_keys]
  split
  · exact h
  · rename_i hany
    have hany' : (d.any fun kv => kv.1 = k) = false := by
      rw [← Bool.not_eq_true]
      exact hany
    rw [List.nodup_append]
    refine ⟨h, List.nodup_singleton k, ?_⟩
    intro x hx hk
    rw [List.mem_singleton] at hk
    subst hk
    rcases List.mem_map.mp hx with ⟨kv, hkv, he⟩
    have hfalse := List.any_eq_false.mp hany' kv hkv
    simp [he] at hfalse

theorem mcqLoop_cons (J : String → Except String Json) (t : String)
    (r : Except String String) (rest : List (String × Except String String))
    (d : List (String × Json)) :
    mcqLoop J ((t, r) :: rest) d
      = mcqLoop J rest (dictSet d t (generate_mcq J r).value) := rfl

theorem mcqLoop_append (J : String → Except String Json)
    (L1 L2 : List (String × Except String String)) (d : List (String × Json)) :
    mcqLoop J (L1 ++ L2) d = mcqLoop J L2 (mcqLoop J L1 d) := by
  induction L1 generalizing d with
  | nil => rfl
  | cons x L1 ih =>
      cases x with
      | mk t r => rw [List.cons_append, mcqLoop_cons, mcqLoop_cons, ih]

theorem mcqLoop_not_mem (J : String → Except String Json)
    (L : List (String × Except String String)) (d : List (String × Json))
    (t : String) (ht : t ∉ L.map Prod.fst) :
    dictGet (mcqLoop J L d) t = dictGet d t := by
  induction L generalizing d with
  | nil => rfl
  | cons x L ih =>
      cases x with
      | mk t' r =>
          simp only [List.map_cons, List.mem_cons] at ht
          push_neg at ht
          rw [mcqLoop_cons, ih _ ht.2, dictGet_dictSet_ne _ _ _ _ ht.1]

/-- The loop's result off a key `t` depends only on the keys of the starting dict
and its entries off `t`. -/
theorem mcqLoop_congr_off_key (J : String → Except String Json)
    (L : List (String × Except String String)) (t : String)
    (d₁ d₂ : List (String × Json))
    (hkeys : d₁.map Prod.fst = d₂.map Prod.fst)
    (hoff : ∀ k, k ≠ t → dictGet d₁ k = dictGet d₂ k) :
    (mcqLoop J L d₁).map Prod.fst = (mcqLoop J L d₂).map Prod.fst ∧
    ∀ k, k ≠ t → dictGet (mcqLoop J L d₁) k = dictGet (mcqLoop J L d₂) k := by
  induction L generalizing d₁ d₂ with
  | nil => exact ⟨hkeys, hoff⟩
  | cons x L ih =>
      cases x with
      | mk t' r =>
          rw [mcqLoop_cons, mcqLoop_cons]
          apply ih
          · rw [dictSet_keys, dictSet_keys, hkeys,
              any_key_eq_keys_any, any_key_eq_keys_any, hkeys]
          · intro k hk
            by_cases hkt' : k = t'
            · subst hkt'
              rw [dictGet_dictSet_self, dictGet_dictSet_self]
            · rw [dictGet_dictSet_ne _ _ _ _ hkt', dictGet_dictSet_ne _ _ _ _ hkt']
              exact hoff k hk

theorem mcqLoop_keys (J : String → Except String Json)
    (L : List (String × Except String String)) (d : List (String × Json))
    (h : (d.map Prod.fst).Nodup) :
    ((mcqLoop J L d).map Prod.fst).Nodup ∧
    ∀ k, k ∈ (mcqLoop J L d).map Prod.fst ↔
      k ∈ d.map Prod.fst ∨ k ∈ L.map Prod.fst := by
  induction L generalizing d with
  | nil => exact ⟨h, fun k => by rw [show mcqLoop J [] d = d from rfl]; simp⟩
  | cons x L ih =>
      cases x with
      | mk t' r =>
          rw [mcqLoop_cons]
          obtain ⟨ih1, ih2⟩ :=
            ih (dictSet d t' (generate_mcq J r).value) (dictSet_keys_nodup _ _ _ h)
          refine ⟨ih1, fun k => ?_⟩
          rw [ih2 k, dictSet_keys_mem]
          simp only [List.map_cons, List.mem_cons]
          tauto

/-! ## Claim theorems -/

theorem reset_handler_apply (st : SessionState) (k : String) :
    reset_handler st k =
      if k = "faktabas" ∨ k = "larandemal_och_indikatorer" ∨ k = "mcqs" then none
      else st k := by
  show popKey (popKey (popKey st "faktabas") "larandemal_och_indikatorer") "mcqs" k = _
  unfold popKey
  by_cases h1 : k = "mcqs" <;> by_cases h2 : k = "larandemal_och_indikatorer" <;>
    by_cases h3 : k = "faktabas" <;> simp [h1, h2, h3]

/-- C1: for every non-empty fact base the objective count computed at `fk.py`
line 68 equals `clamp(len(faktabas) // 1000, 3, 8)`, hence always lies in
`[3, 8]`; a 3,500-character fact base yields 3 and a 9,000-character one
yields 8. -/
theorem num_goals_matches_clamp (faktabas : String) (h : faktabas ≠ "") :
    3 ≤ num_goals faktabas.length ∧ num_goals faktabas.length ≤ 8 ∧
    num_goals faktabas.length = specClamp (faktabas.length / 1000) 3 8 ∧
    num_goals 3500 = 3 ∧ num_goals 9000 = 8 := by
  refine ⟨?_, ?_, ?_, by decide, by decide⟩ <;>
    simp only [num_goals, specClamp] <;> omega

theorem num_goals_matches_clamp_witness :
    ("faktatext" : String) ≠ "" ∧
    (3 ≤ num_goals ("faktatext" : String).length ∧
      num_goals ("faktatext" : String).length ≤ 8 ∧
      num_goals ("faktatext" : String).length
        = specClamp (("faktatext" : String).length / 1000) 3 8 ∧
      num_goals 3500 = 3 ∧ num_goals 9000 = 8) :=
  ⟨by decide, num_goals_matches_clamp "faktatext" (by decide)⟩

/-- C3: the reset handler removes exactly the keys `faktabas`,
`larandemal_och_indikatorer` and `mcqs`, and leaves every other entry of the
session state — in particular the stored credential `api_key` — unchanged. -/
theorem reset_clears_exactly_three_keys (st : SessionState) (k : String) :
    (k ∈ resetSessionKeys → reset_handler st k = none) ∧
    (k ∉ resetSessionKeys → reset_handler st k = st k) ∧
    reset_handler st "api_key" = st "api_key" := by
  refine ⟨?_, ?_, ?_⟩
  · intro hk
    rw [reset_handler_apply]
    simp only [resetSessionKeys, List.mem_cons, List.not_mem_nil, or_false] at hk
    rcases hk with h | h | h <;> simp [h]
  · intro hk
    rw [reset_handler_apply]
    simp only [resetSessionKeys, List.mem_cons, List.not_mem_nil, or_false] at hk
    push_neg at hk
    rw [if_neg]
    simp [hk.1, hk.2.1, hk.2.2]
  · rw [reset_handler_apply]
    simp

theorem reset_clears_exactly_three_keys_witness :
    ("faktabas" ∈ resetSessionKeys) ∧
    ("api_nyckel" ∉ resetSessionKeys) ∧
    reset_handler (fun _ => some (SessVal.str "v")) "faktabas" = none ∧
    reset_handler (fun _ => some (SessVal.str "v")) "api_nyckel"
      = some (SessVal.str "v") ∧
    reset_handler (fun _ => some (SessVal.str "v")) "api_key"
      = some (SessVal.str "v") :=
  ⟨by decide, by decide,
    (reset_clears_exactly_three_keys (fun _ => some (SessVal.str "v")) "faktabas").1
      (by decide),
    (reset_clears_exactly_three_keys (fun _ => some (SessVal.str "v")) "api_nyckel").2.1
      (by decide),
    (reset_clears_exactly_three_keys (fun _ => some (SessVal.str "v")) "api_key").2.2⟩

/-- C5: a completion reply that is empty after whitespace trimming and fence
stripping makes `generate_learning_objectives` report the explicit empty-response
error "API:s svar var tomt." and return the empty sequence, without raising. -/
theorem objectives_empty_reply_error (jsonLoads : String → Except String Json)
    (content : String) (h : stripReplyFences content = "") :
    generate_learning_objectives jsonLoads (Except.ok content)
      = ⟨Json.arr [], ["API:s svar var tomt."]⟩ := by
  simp [generate_learning_objectives, h]

theorem objectives_empty_reply_error_witness :
    stripReplyFences "```\n```" = "" ∧
    generate_learning_objectives (fun _ => Except.error "fel") (Except.ok "```\n```")
      = ⟨Json.arr [], ["API:s svar var tomt."]⟩ :=
  ⟨by decide,
    objectives_empty_reply_error (fun _ => Except.error "fel") "```\n```" (by decide)⟩

/-- C8: for every file whose name ends in none of `.txt`, `.pdf`, `.docx`,
`extract_text` returns the empty string and reports no error. -/
theorem extract_text_unsupported_ext (file : UploadedFile)
    (h1 : pyEndsWith file.name ".txt" = false)
    (h2 : pyEndsWith file.name ".pdf" = false)
    (h3 : pyEndsWith file.name ".docx" = false) :
    extract_text file = ("", []) := by
  simp [extract_text, h1, h2, h3]

theorem extract_text_unsupported_ext_witness :
    pyEndsWith "bild.png" ".txt" = false ∧
    pyEndsWith "bild.png" ".pdf" = false ∧
    pyEndsWith "bild.png" ".docx" = false ∧
    extract_text ⟨"bild.png", Except.ok "t", Except.ok [], Except.ok []⟩ = ("", []) :=
  ⟨by decide, by decide, by decide,
    extract_text_unsupported_ext ⟨"bild.png", Except.ok "t", Except.ok [], Except.ok []⟩
      (by decide) (by decide) (by decide)⟩

/-- C10: a reply that decodes as valid JSON which is not an array (here: any
decoded value, in particular non-arrays) is returned as-is by both
`generate_learning_objectives` and `generate_mcq`, with no error reported. -/
theorem decoded_value_returned_verbatim (jsonLoads : String → Except String Json)
    (content : String) (v : Json)
    (hne : stripReplyFences content ≠ "")
    (hdec : jsonLoads (stripReplyFences content) = Except.ok v)
    (hnotarr : ∀ xs, v ≠ Json.arr xs) :
    generate_learning_objectives jsonLoads (Except.ok content) = ⟨v, []⟩ ∧
    generate_mcq jsonLoads (Except.ok content) = ⟨v, []⟩ := by
  constructor
  · simp [generate_learning_objectives, hne, hdec]
  · simp [generate_mcq, hdec]

theorem decoded_value_returned_verbatim_witness :
    stripReplyFences "7" ≠ "" ∧
    (fun t => if t = "7" then Except.ok (Json.num 7) else Except.error "fel")
        (stripReplyFences "7") = Except.ok (Json.num 7) ∧
    generate_learning_objectives
        (fun t => if t = "7" then Except.ok (Json.num 7) else Except.error "fel")
        (Except.ok "7") = ⟨Json.num 7, []⟩ ∧
    generate_mcq
        (fun t => if t = "7" then Except.ok (Json.num 7) else Except.error "fel")
        (Except.ok "7") = ⟨Json.num 7, []⟩ := by
  have h := decoded_value_returned_verbatim
    (fun t => if t = "7" then Except.ok (Json.num 7) else Except.error "fel")
    "7" (Json.num 7) (by decide) (by rfl)
    (fun xs hx => Json.noConfusion hx)
  exact ⟨by decide, by rfl, h.1, h.2⟩

/-- C2: a completion reply consisting of a JSON text `s` wrapped in code-fence
delimiter lines (a first line starting with ``` and a last line starting with
```) is preprocessed by the fence-stripping step to exactly the same string as
the reply `s` without fences — hence the subsequent JSON decode yields exactly
the same value.  Hypotheses: the fence lines contain no line breaks (the closing
one no whitespace at all), line breaks inside `s` are `\n`, and `s` itself does
not start with a fence marker. -/
theorem fenced_reply_decodes_identically (fo fc s : String)
    (hfo : pyStartsWith fo "```" = true)
    (hfc : pyStartsWith fc "```" = true)
    (hfoNB : ∀ c ∈ fo.data, isLineBreak c = false)
    (hfcNS : ∀ c ∈ fc.data, pyIsSpace c = false)
    (hs : ∀ c ∈ s.data, isLineBreak c = true → c = '\n')
    (hsp : pyStartsWith (pyStrip s) "```" = false) :
    stripReplyFences (fo ++ "\n" ++ s ++ "\n" ++ fc) = stripReplyFences s := by
  rw [stripReplyFences_wrapped fo fc s hfo hfc hfoNB hfcNS hs]
  unfold stripReplyFences
  rw [if_neg (by simp [hsp])]

theorem fenced_reply_decodes_identically_witness :
    pyStartsWith "```json" "```" = true ∧
    pyStartsWith "```" "```" = true ∧
    (∀ c ∈ ("```json" : String).data, isLineBreak c = false) ∧
    (∀ c ∈ ("```" : String).data, pyIsSpace c = false) ∧
    (∀ c ∈ ("[1, 2]" : String).data, isLineBreak c = true → c = '\n') ∧
    pyStartsWith (pyStrip "[1, 2]") "```" = false ∧
    stripReplyFences ("```json" ++ "\n" ++ "[1, 2]" ++ "\n" ++ "```")
      = stripReplyFences "[1, 2]" :=
  ⟨by decide, by decide, by decide, by decide, by decide, by decide,
    fenced_reply_decodes_identically "```json" "```" "[1, 2]"
      (by decide) (by decide) (by decide) (by decide) (by decide) (by decide)⟩

theorem pdfAccum_errors_le_one
    (pages : List (Except String (Option String))) (text : String) :
    (pdfAccum pages text).2.length ≤ 1 := by
  induction pages generalizing text with
  | nil => simp [pdfAccum]
  | cons p rest ih =>
      cases p with
      | error e => simp [pdfAccum]
      | ok o =>
          cases o with
          | none => simpa [pdfAccum] using ih text
          | some pt =>
              by_cases hpt : pt = ""
              · simpa [pdfAccum, hpt] using ih text
              · simpa [pdfAccum, hpt] using ih (text ++ pt ++ "\n")

theorem pdfAccum_stops_at_error (good : List (Option String)) (e : String)
    (rest : List (Except String (Option String))) (text : String) :
    pdfAccum (good.map Except.ok ++ Except.error e :: rest) text =
      ((pdfAccum (good.map Except.ok) text).1,
        ["Fel vid extrahering av text: " ++ e]) := by
  induction good generalizing text with
  | nil => simp [pdfAccum]
  | cons o good ih =>
      cases o with
      | none => simpa [pdfAccum] using ih text
      | some pt =>
          by_cases hpt : pt = ""
          · simpa [pdfAccum, hpt] using ih text
          · simpa [pdfAccum, hpt] using ih (text ++ pt ++ "\n")

/-- C6: `extract_text` never raises past its boundary: for every input file it
returns a string and reports at most one error; in particular, when a PDF page
raises mid-extraction, the text accumulated from the preceding pages is
returned together with the error report. -/
theorem extract_text_total_and_accumulates (file : UploadedFile) :
    (extract_text file).2.length ≤ 1 ∧
    (∀ (good : List (Option String)) (e : String)
        (rest : List (Except String (Option String))),
      pyEndsWith file.name ".txt" = false →
      pyEndsWith file.name ".pdf" = true →
      file.pdfPages
          = Except.ok (List.map Except.ok good ++ Except.error e :: rest) →
      extract_text file =
        ((extract_text
            { file with pdfPages := Except.ok (List.map Except.ok good) }).1,
          ["Fel vid extrahering av text: " ++ e])) := by
  constructor
  · cases h1 : pyEndsWith file.name ".txt" with
    | true => cases htd : file.txtDecode <;> simp [extract_text, h1, htd]
    | false =>
        cases h2 : pyEndsWith file.name ".pdf" with
        | true =>
            cases hpp : file.pdfPages with
            | error e => simp [extract_text, h1, h2, hpp]
            | ok pages =>
                simpa [extract_text, h1, h2, hpp] using pdfAccum_errors_le_one pages ""
        | false =>
            cases h3 : pyEndsWith file.name ".docx" with
            | true => cases hdp : file.docxParas <;> simp [extract_text, h1, h2, h3, hdp]
            | false => simp [extract_text, h1, h2, h3]
  · intro good e rest h1 h2 hpp
    have hl : extract_text file
        = pdfAccum (List.map Except.ok good ++ Except.error e :: rest) "" := by
      simp [extract_text, h1, h2, hpp]
    have hr : extract_text
          { file with pdfPages := Except.ok (List.map Except.ok good) }
        = pdfAccum (List.map Except.ok good) "" := by
      simp [extract_text, h1, h2]
    rw [hl, hr, pdfAccum_stops_at_error]

theorem extract_text_total_and_accumulates_witness :
    (extract_text ⟨"dok.pdf", Except.error "fel",
        Except.ok [Except.ok (some "Sida ett"), Except.error "trasig sida"],
        Except.ok []⟩).2.length ≤ 1 ∧
    pyEndsWith "dok.pdf" ".txt" = false ∧
    pyEndsWith "dok.pdf" ".pdf" = true ∧
    extract_text ⟨"dok.pdf", Except.error "fel",
        Except.ok [Except.ok (some "Sida ett"), Except.error "trasig sida"],
        Except.ok []⟩ =
      ((extract_text ⟨"dok.pdf", Except.error "fel",
          Except.ok [Except.ok (some "Sida ett")], Except.ok []⟩).1,
        ["Fel vid extrahering av text: " ++ "trasig sida"]) := by
  have h := extract_text_total_and_accumulates ⟨"dok.pdf", Except.error "fel",
    Except.ok [Except.ok (some "Sida ett"), Except.error "trasig sida"], Except.ok []⟩
  exact ⟨h.1, by decide, by decide,
    h.2 [some "Sida ett"] "trasig sida" [] (by decide) (by decide) (by rfl)⟩

/-- C7: on upload, a non-empty extraction replaces the stored `faktabas` and
shows a success message, leaving every other session entry unchanged; an empty
extraction shows an error and leaves the whole session state — in particular
any previously stored `faktabas` — unchanged. -/
theorem upload_sets_faktabas_or_keeps_state (st : SessionState)
    (file : UploadedFile) :
    ((extract_text file).1 ≠ "" →
      (handleUpload st file).1 "faktabas"
          = some (SessVal.str (extract_text file).1) ∧
      (∀ k, k ≠ "faktabas" → (handleUpload st file).1 k = st k) ∧
      (handleUpload st file).2.2
          = ["Filen " ++ file.name ++ " har laddats upp!"]) ∧
    ((extract_text file).1 = "" →
      (handleUpload st file).1 = st ∧
      "Kunde inte extrahera text från filen." ∈ (handleUpload st file).2.1) := by
  constructor
  · intro h
    refine ⟨?_, ?_, ?_⟩
    · simp [handleUpload, h, setKey]
    · intro k hk
      simp [handleUpload, h, setKey, hk]
    · simp [handleUpload, h]
  · intro h
    refine ⟨?_, ?_⟩
    · simp [handleUpload, h]
    · simp [handleUpload, h]

theorem upload_sets_faktabas_or_keeps_state_witness :
    ((extract_text ⟨"bas.txt", Except.ok "innehåll", Except.ok [], Except.ok []⟩).1 ≠ "") ∧
    (handleUpload (fun _ => none)
        ⟨"bas.txt", Except.ok "innehåll", Except.ok [], Except.ok []⟩).1 "faktabas"
      = some (SessVal.str
          (extract_text ⟨"bas.txt", Except.ok "innehåll", Except.ok [], Except.ok []⟩).1) ∧
    (handleUpload (fun _ => none)
        ⟨"bas.txt", Except.ok "innehåll", Except.ok [], Except.ok []⟩).1 "api_key"
      = (fun (_ : String) => (none : Option SessVal)) "api_key" ∧
    ((extract_text ⟨"tom.txt", Except.error "avkodningsfel", Except.ok [], Except.ok []⟩).1 = "") ∧
    (handleUpload (fun _ => none)
        ⟨"tom.txt", Except.error "avkodningsfel", Except.ok [], Except.ok []⟩).1
      = (fun _ => none) ∧
    "Kunde inte extrahera text från filen." ∈
      (handleUpload (fun _ => none)
        ⟨"tom.txt", Except.error "avkodningsfel", Except.ok [], Except.ok []⟩).2.1 := by
  have h1 := (upload_sets_faktabas_or_keeps_state (fun _ => none)
    ⟨"bas.txt", Except.ok "innehåll", Except.ok [], Except.ok []⟩).1 (by decide)
  have h2 := (upload_sets_faktabas_or_keeps_state (fun _ => none)
    ⟨"tom.txt", Except.error "avkodningsfel", Except.ok [], Except.ok []⟩).2 (by rfl)
  exact ⟨by decide, h1.1, h1.2.1 "api_key" (by decide), by rfl, h2.1, h2.2⟩

/-- C4: in the question-generation loop, a completion reply for one objective
that fails to decode as JSON stores the empty MCQ sequence under that
objective's title only; the entries stored for every other title are exactly
those that would be stored had that objective received any other reply, so
generation for the other objectives proceeds and is stored independently. -/
theorem mcq_decode_failure_isolated (J : String → Except String Json)
    (pre post : List (String × Except String String))
    (t content err : String) (r' : Except String String)
    (d : List (String × Json))
    (hfail : J (stripReplyFences content) = Except.error err)
    (hpost : t ∉ post.map Prod.fst) :
    dictGet (mcqLoop J (pre ++ (t, Except.ok content) :: post) d) t
        = some (Json.arr []) ∧
    ∀ k, k ≠ t →
      dictGet (mcqLoop J (pre ++ (t, Except.ok content) :: post) d) k
        = dictGet (mcqLoop J (pre ++ (t, r') :: post) d) k := by
  have hval : (generate_mcq J (Except.ok content)).value = Json.arr [] := by
    simp [generate_mcq, hfail]
  constructor
  · rw [mcqLoop_append, mcqLoop_cons, hval,
      mcqLoop_not_mem J post _ t hpost, dictGet_dictSet_self]
  · intro k hk
    rw [mcqLoop_append, mcqLoop_append, mcqLoop_cons, mcqLoop_cons]
    refine (mcqLoop_congr_off_key J post t _ _ ?_ ?_).2 k hk
    · rw [dictSet_keys, dictSet_keys]
    · intro k' hk'
      rw [dictGet_dictSet_ne _ _ _ _ hk', dictGet_dictSet_ne _ _ _ _ hk']

theorem mcq_decode_failure_isolated_witness :
    (fun u => if u = "[]" then Except.ok (Json.arr []) else Except.error "Expecting value")
        (stripReplyFences "trasigt") = Except.error "Expecting value" ∧
    ("mål C" ∉ ([("mål B", Except.ok "[]")].map
        (Prod.fst (α := String) (β := Except String String)))) ∧
    dictGet (mcqLoop
        (fun u => if u = "[]" then Except.ok (Json.arr []) else Except.error "Expecting value")
        ([("mål A", Except.ok "[]")] ++ ("mål C", Except.ok "trasigt")
          :: [("mål B", Except.ok "[]")]) []) "mål C"
      = some (Json.arr []) ∧
    dictGet (mcqLoop
        (fun u => if u = "[]" then Except.ok (Json.arr []) else Except.error "Expecting value")
        ([("mål A", Except.ok "[]")] ++ ("mål C", Except.ok "trasigt")
          :: [("mål B", Except.ok "[]")]) []) "mål B"
      = dictGet (mcqLoop
        (fun u => if u = "[]" then Except.ok (Json.arr []) else Except.error "Expecting value")
        ([("mål A", Except.ok "[]")] ++ ("mål C", Except.ok "[]")
          :: [("mål B", Except.ok "[]")]) []) "mål B" := by
  have h := mcq_decode_failure_isolated
    (fun u => if u = "[]" then Except.ok (Json.arr []) else Except.error "Expecting value")
    [("mål A", Except.ok "[]")] [("mål B", Except.ok "[]")]
    "mål C" "trasigt" "Expecting value" (Except.ok "[]") []
    (by rfl) (by decide)
  exact ⟨by rfl, by decide, h.1, h.2 "mål B" (by decide)⟩

/-- C9: the MCQ map is keyed by the objective's title: when two objectives share
a title, the loop stores the later objective's MCQ sequence under that title,
silently overwriting the earlier one's, and the resulting map has exactly one
entry per distinct title. -/
theorem duplicate_title_overwritten (J : String → Except String Json)
    (L1 L2 L3 : List (String × Except String String)) (t : String)
    (r1 r2 : Except String String)
    (h3 : t ∉ L3.map Prod.fst) :
    dictGet (mcqLoop J (L1 ++ (t, r1) :: (L2 ++ (t, r2) :: L3)) []) t
        = some (generate_mcq J r2).value ∧
    ((mcqLoop J (L1 ++ (t, r1) :: (L2 ++ (t, r2) :: L3)) []).map Prod.fst).Nodup ∧
    ∀ k, k ∈ (mcqLoop J (L1 ++ (t, r1) :: (L2 ++ (t, r2) :: L3)) []).map Prod.fst ↔
      k ∈ (L1 ++ (t, r1) :: (L2 ++ (t, r2) :: L3)).map Prod.fst := by
  refine ⟨?_, ?_, ?_⟩
  · rw [mcqLoop_append, mcqLoop_cons, mcqLoop_append, mcqLoop_cons,
      mcqLoop_not_mem J L3 _ t h3, dictGet_dictSet_self]
  · exact (mcqLoop_keys J _ [] (by simp)).1
  · intro k
    rw [(mcqLoop_keys J _ [] (by simp)).2 k]
    simp

theorem duplicate_title_overwritten_witness :
    ("Lista målen" ∉ (([] : List (String × Except String String)).map Prod.fst)) ∧
    dictGet (mcqLoop (fun _ => Except.error "fel")
        ([] ++ ("Lista målen", Except.ok "första") :: ([] ++ ("Lista målen", Except.ok "andra") :: [])) [])
        "Lista målen"
      = some (generate_mcq (fun _ => Except.error "fel") (Except.ok "andra")).value ∧
    ((mcqLoop (fun _ => Except.error "fel")
        ([] ++ ("Lista målen", Except.ok "första") :: ([] ++ ("Lista målen", Except.ok "andra") :: [])) []).map
        Prod.fst).Nodup ∧
    ("Lista målen" ∈ (mcqLoop (fun _ => Except.error "fel")
        ([] ++ ("Lista målen", Except.ok "första") :: ([] ++ ("Lista målen", Except.ok "andra") :: [])) []).map
        Prod.fst ↔
      "Lista målen" ∈ ([] ++ ("Lista målen", Except.ok "första")
        :: ([] ++ ("Lista målen", Except.ok "andra") :: [])).map
        (Prod.fst (α := String) (β := Except String String))) := by
  have h := duplicate_title_overwritten (fun _ => Except.error "fel")
    [] [] [] "Lista målen" (Except.ok "första") (Except.ok "andra") (by decide)
  exact ⟨by decide, h.1, h.2.1, h.2.2 "Lista målen"⟩

end FK
